import Mathlib

/-!
Verification of the topology-inference and validation engine of the Dynamica
circuit editor, embedded from `src/web/src/controller/analysisController.ts`
(clustering, integrity validation, parameter completeness) together with the
unknown-flag normalization sites in `componentInspectorController.ts` and the
canvas controller's `buildLabeledComponent`.

Coordinates are embedded as rationals: every arithmetic operation performed by
the engine (subtraction, multiplication, comparison, and the incremental-mean
division) is exact at the small integer inputs the theorems use, so ℚ is a
faithful carrier for them.
-/

namespace Dynamica

/-- A 2D terminal point in canvas space (`pinA` / `pinB` of a component). -/
structure Point where
  x : ℚ
  y : ℚ
  deriving DecidableEq

/-- Embedding of the `ComponentInstance` record of `analysisController.ts`.
Optional fields of the TypeScript record become `Option`s. -/
structure ComponentInstance where
  id : String
  type : String
  pinA : Point
  pinB : Point
  label : Option String := none
  value : Option String := none
  current : Option String := none
  voltage : Option String := none
  currentUnknown : Option Bool := none
  voltageUnknown : Option Bool := none
  sourceDirection : Option String := none
  sourcePolarity : Option String := none
  deriving DecidableEq

/-- `typeof f === "string" && f.trim() !== ""`: the field is present and its
trimmed value is non-empty. -/
def isNonemptyStringField (v : Option String) : Bool :=
  match v with
  | some s => s.trim != ""
  | none => false

/-- `!!(f && f.trim() !== "")`: JavaScript truthiness (undefined and `""` are
falsy) followed by the trim check, as used by `normalizeComponentsForAnalysis`. -/
def isTruthyNonempty (v : Option String) : Bool :=
  match v with
  | some s => s != "" && s.trim != ""
  | none => false

/-- Embedding of `canonicalLabel` (analysisController.ts, lines 39-43): the
trimmed explicit label when truthy, otherwise `TYPE_＜index+1＞` uppercased. -/
def canonicalLabel (comp : ComponentInstance) (index : ℕ) : String :=
  match comp.label with
  | some l =>
    let t := l.trim
    if t != "" then t else comp.type.toUpper ++ "_" ++ toString (index + 1)
  | none => comp.type.toUpper ++ "_" ++ toString (index + 1)

/-- Embedding of `getMissingParamReason` (analysisController.ts, lines 45-64).
Returns `some reason` when the component is missing its required parameter. -/
def getMissingParamReason (comp : ComponentInstance) : Option String :=
  if comp.type = "wire" then none
  else if comp.type = "resistor" ∨ comp.type = "capacitor" ∨ comp.type = "inductor" then
    if isNonemptyStringField comp.value then none else some "valore"
  else if comp.type = "voltage_source" then
    if comp.voltageUnknown = some true ∨ ¬ (isNonemptyStringField comp.voltage = true) then
      some "tensione"
    else none
  else if comp.type = "current_source" then
    if comp.currentUnknown = some true ∨ ¬ (isNonemptyStringField comp.current = true) then
      some "corrente"
    else none
  else none

/-- The `missing` list built by `validateComponentParams` (lines 66-73): one
entry `label (reason)` per component whose required parameter is missing, in
component order. The running index mirrors the `map` callback's index. -/
def missingParamEntriesAux : List ComponentInstance → ℕ → List String
  | [], _ => []
  | comp :: rest, index =>
    match getMissingParamReason comp with
    | some reason =>
      (canonicalLabel comp index ++ " (" ++ reason ++ ")") :: missingParamEntriesAux rest (index + 1)
    | none => missingParamEntriesAux rest (index + 1)

def missingParamEntries (components : List ComponentInstance) : List String :=
  missingParamEntriesAux components 0

/-- Embedding of `validateComponentParams` (analysisController.ts, lines 66-80). -/
def validateComponentParams (components : List ComponentInstance) : Except String Unit :=
  let missing := missingParamEntries components
  if missing.length = 0 then Except.ok ()
  else
    Except.error ("Errore parametro mancante: " ++ String.intercalate ", " (missing.take 4) ++
      (if missing.length > 4 then "..." else "") ++ ".")

/-- Embedding of the per-component body of `normalizeComponentsForAnalysis`
(analysisController.ts, lines 192-214): sources get their unknown flags derived
from field emptiness and their `value` cleared; other components pass through. -/
def normalizeComponentForAnalysis (comp : ComponentInstance) : ComponentInstance :=
  if comp.type = "voltage_source" then
    let hasVoltage := isTruthyNonempty comp.voltage
    { comp with
      value := none
      voltageUnknown := some (!hasVoltage)
      currentUnknown := some hasVoltage }
  else if comp.type = "current_source" then
    let hasCurrent := isTruthyNonempty comp.current
    { comp with
      value := none
      currentUnknown := some (!hasCurrent)
      voltageUnknown := some hasCurrent }
  else comp

def normalizeComponentsForAnalysis (components : List ComponentInstance) : List ComponentInstance :=
  components.map normalizeComponentForAnalysis

/-- Unknown-flag normalization performed by the inspector when rendering a
component (`componentInspectorController.ts`, `renderComponent`, lines 169-183):
flags default to `true` when absent; when both flags agree on a source they are
reset to a fixed orientation. Returns `(currentUnknown, voltageUnknown)`. -/
def inspectorUnknownFlags (typeName : String) (currentUnknown voltageUnknown : Option Bool) :
    Bool × Bool :=
  let cu := currentUnknown.getD true
  let vu := voltageUnknown.getD true
  let isVoltageSource := typeName == "voltage_source"
  let isCurrentSource := typeName == "current_source"
  if (isVoltageSource || isCurrentSource) && cu == vu then
    if isVoltageSource then (true, false)
    else (false, true)
  else (cu, vu)

/-- Unknown-flag resolution in `buildLabeledComponent` (canvas controller,
`sourceUnknowns`): raw flags default to `true`; on a source with agreeing raw
flags each flag is replaced by a fixed default. Returns
`(currentUnknown, voltageUnknown)`. -/
def buildLabeledUnknownFlags (typeName : String) (currentUnknown voltageUnknown : Option Bool) :
    Bool × Bool :=
  let currentUnknownRaw := currentUnknown.getD true
  let voltageUnknownRaw := voltageUnknown.getD true
  if typeName == "voltage_source" then
    (if currentUnknownRaw == voltageUnknownRaw then true else currentUnknownRaw,
     if currentUnknownRaw == voltageUnknownRaw then false else voltageUnknownRaw)
  else if typeName == "current_source" then
    (if currentUnknownRaw == voltageUnknownRaw then false else currentUnknownRaw,
     if currentUnknownRaw == voltageUnknownRaw then true else voltageUnknownRaw)
  else (currentUnknownRaw, voltageUnknownRaw)

/-! ### Point clustering and topology (analysisController.ts, lines 82-167) -/

/-- `CLUSTER_TOLERANCE = 8` (line 31). -/
def CLUSTER_TOLERANCE : ℚ := 8

/-- `tolerance2 = CLUSTER_TOLERANCE * CLUSTER_TOLERANCE` (line 87). -/
def tolerance2 : ℚ := CLUSTER_TOLERANCE * CLUSTER_TOLERANCE

/-- A running cluster: centroid `(x, y)` and member count (line 88). -/
structure Cluster where
  x : ℚ
  y : ℚ
  count : ℕ
  deriving DecidableEq

/-- Squared distance from the point `(x, y)` to the centroid of `c`
(`dx*dx + dy*dy`, lines 96-98). -/
def dist2 (x y : ℚ) (c : Cluster) : ℚ :=
  (x - c.x) * (x - c.x) + (y - c.y) * (y - c.y)

/-- The centroid update of lines 99-102: incremental mean and incremented count. -/
def mergePoint (c : Cluster) (x y : ℚ) : Cluster :=
  let newCount := c.count + 1
  { x := (c.x * (c.count : ℚ) + x) / (newCount : ℚ)
    y := (c.y * (c.count : ℚ) + y) / (newCount : ℚ)
    count := newCount }

/-- Embedding of `assignCluster` (lines 93-107): scan the clusters in order,
merge the point into the first one whose centroid is within tolerance
(squared-distance comparison), otherwise append a fresh singleton cluster.
Returns the assigned node id together with the updated cluster list. -/
def assignCluster (x y : ℚ) : List Cluster → ℕ × List Cluster
  | [] => (0, [⟨x, y, 1⟩])
  | c :: rest =>
    if dist2 x y c > tolerance2 then
      let r := assignCluster x y rest
      (r.1 + 1, c :: r.2)
    else (0, mergePoint c x y :: rest)

/-- One iteration of the `components.forEach` loop of lines 116-122: assign
`pinA` then `pinB`, and record the component's `(a, b)` node pair. -/
def topologyStep (acc : List Cluster × List (ℕ × ℕ)) (comp : ComponentInstance) :
    List Cluster × List (ℕ × ℕ) :=
  let ra := assignCluster comp.pinA.x comp.pinA.y acc.1
  let rb := assignCluster comp.pinB.x comp.pinB.y ra.2
  (rb.2, acc.2 ++ [(ra.1, rb.1)])

/-- The clustering pass over the whole component list: final clusters and the
per-component node pairs (`componentNodes`). -/
def buildTopology (components : List ComponentInstance) : List Cluster × List (ℕ × ℕ) :=
  components.foldl topologyStep ([], [])

/-- The value of the `terminalCounts` map at node `n`: `incTerminal` (lines
109-114, 120-121) is called once per terminal of every component, so the count
at `n` is the number of terminals assigned to `n` (two from the same component
both count). -/
def terminalCount (cn : List (ℕ × ℕ)) (n : ℕ) : ℕ :=
  (cn.map fun p => (if p.1 = n then 1 else 0) + (if p.2 = n then 1 else 0)).sum

/-- The dangling test of line 128: either node of the pair has fewer than two
terminals. -/
def danglingAt (cn : List (ℕ × ℕ)) (nodes : ℕ × ℕ) : Bool :=
  decide (terminalCount cn nodes.1 < 2) || decide (terminalCount cn nodes.2 < 2)

/-- The `danglingComponents` list of lines 124-131: canonical labels of the
components whose node pair fails the dangling test, in component order. The
`map` + `filter` of the source is fused into one recursion carrying the index. -/
def danglingComponentsAux (cn : List (ℕ × ℕ)) :
    List ComponentInstance → List (ℕ × ℕ) → ℕ → List String
  | comp :: comps, nodes :: rest, index =>
    if danglingAt cn nodes then
      canonicalLabel comp index :: danglingComponentsAux cn comps rest (index + 1)
    else danglingComponentsAux cn comps rest (index + 1)
  | _, _, _ => []

def danglingComponents (components : List ComponentInstance) (cn : List (ℕ × ℕ)) :
    List String :=
  danglingComponentsAux cn components cn 0

/-- Two node pairs share a node id. The source (lines 139-150) adds an
adjacency edge between two component indices exactly when some node's
member set (`clusterComponents`, filled by `incTerminal` with the indices of
the components touching the node) contains both, which holds iff the two
components' node pairs intersect. -/
def sharesNode (p q : ℕ × ℕ) : Bool :=
  p.1 == q.1 || p.1 == q.2 || p.2 == q.1 || p.2 == q.2

/-- The adjacency list of component `i`: every other component index sharing a
node id with `i`. -/
def neighborsOf (cn : List (ℕ × ℕ)) (i : ℕ) : List ℕ :=
  (List.range cn.length).filter fun j =>
    j != i && sharesNode (cn.getD i (0, 0)) (cn.getD j (0, 0))

/-- The component-adjacency edge relation: vertices are component indices,
edges connect components sharing at least one node id. -/
def adjStep (cn : List (ℕ × ℕ)) (i j : ℕ) : Prop :=
  j ∈ neighborsOf cn i

/-- Processing of one neighbor inside the BFS loop (lines 156-160): skip it if
already visited, otherwise mark it visited and push it on the queue. -/
def bfsInsert (st : List ℕ × Finset ℕ) (nb : ℕ) : List ℕ × Finset ℕ :=
  if nb ∈ st.2 then st else (st.1 ++ [nb], insert nb st.2)

/-- The BFS while-loop of lines 152-161, with explicit fuel: pop the head of
the queue, fold its neighbors through `bfsInsert`, continue. The loop runs at
most once per queue push and every vertex is pushed at most once, so
`cn.length` fuel is enough (proved below). -/
def bfsAux (cn : List (ℕ × ℕ)) : ℕ → List ℕ → Finset ℕ → Finset ℕ
  | 0, _, visited => visited
  | _ + 1, [], visited => visited
  | fuel + 1, current :: rest, visited =>
    bfsAux cn fuel ((neighborsOf cn current).foldl bfsInsert (rest, visited)).1
      ((neighborsOf cn current).foldl bfsInsert (rest, visited)).2

/-- The visited set of the source BFS: start from component index 0. -/
def bfsVisited (cn : List (ℕ × ℕ)) : Finset ℕ :=
  bfsAux cn cn.length [0] {0}

/-- Embedding of `validateCircuitIntegrity` (analysisController.ts, lines
82-168): empty-circuit guard, clustering, dangling check with capped report,
then the BFS connectivity check. -/
def validateCircuitIntegrity (components : List ComponentInstance) : Except String Unit :=
  if components.length = 0 then
    Except.error "Circuito vuoto: aggiungi almeno un componente."
  else
    let cn := (buildTopology components).2
    let dangling := danglingComponents components cn
    if dangling.length > 0 then
      Except.error ("Errore di integrità: componenti/rami scoperti (" ++
        String.intercalate ", " (dangling.take 4) ++
        (if dangling.length > 4 then "..." else "") ++ ").")
    else if (bfsVisited cn).card ≠ components.length then
      Except.error "Errore di integrità: il circuito non è completamente interconnesso."
    else Except.ok ()

/-- One validation pass as run by the analyze-click handler (lines 216-241):
integrity first, then parameter completeness. The component list is borrowed
from the editing session; the embedding threads it through and returns it to
the owner so that the frame condition (no mutation) is expressible. -/
def validationPass (components : List ComponentInstance) :
    Except String Unit × List ComponentInstance :=
  match validateCircuitIntegrity components with
  | Except.error e => (Except.error e, components)
  | Except.ok () =>
    match validateComponentParams components with
    | Except.error e => (Except.error e, components)
    | Except.ok () => (Except.ok (), components)

/-- The mutable controller surroundings of the analyze click handler: the error
popup (written by `showAnalysisErrorPopup`) and the persisted analysis draft
(written on success). -/
structure ControllerState where
  popupMessage : Option String
  analysisDraft : Option (List ComponentInstance)
  deriving DecidableEq

/-- The analyze-button click handler (lines 220-240): normalize the snapshot,
validate integrity then parameters; on failure show the error popup, on
success persist the draft. Returns the verdict with the updated state. -/
def analyzeClick (st : ControllerState) (components : List ComponentInstance) :
    Except String Unit × ControllerState :=
  match validateCircuitIntegrity (normalizeComponentsForAnalysis components) with
  | Except.error e => (Except.error e, { st with popupMessage := some e })
  | Except.ok () =>
    match validateComponentParams (normalizeComponentsForAnalysis components) with
    | Except.error e => (Except.error e, { st with popupMessage := some e })
    | Except.ok () =>
      (Except.ok (), { st with analysisDraft := some (normalizeComponentsForAnalysis components) })

/-! ### Concrete components used to instantiate the theorems -/

/-- A voltage source with an empty voltage field and no explicit unknown flag. -/
def vsEmpty : ComponentInstance :=
  { id := "vs1", type := "voltage_source", pinA := ⟨0, 0⟩, pinB := ⟨100, 0⟩, label := some "V1" }

/-- A voltage source with a known, non-empty voltage and no flags. -/
def vsKnown : ComponentInstance :=
  { id := "vs2", type := "voltage_source", pinA := ⟨0, 0⟩, pinB := ⟨1, 0⟩,
    voltage := some "5" }

/-- A single component whose two terminals lie within the clustering tolerance
of each other (distance 5 < 8), so both fall into the same cluster. -/
def selfLoopComp : ComponentInstance :=
  { id := "w1", type := "wire", pinA := ⟨0, 0⟩, pinB := ⟨5, 0⟩ }

/-- An isolated resistor: its two terminals are 100 units apart, giving two
singleton nodes. -/
def rFar : ComponentInstance :=
  { id := "r1", type := "resistor", pinA := ⟨0, 0⟩, pinB := ⟨100, 0⟩, label := some "R1",
    value := some "10" }

/-- A resistor whose value field holds a non-numeric, non-empty string. -/
def rJunk : ComponentInstance :=
  { id := "r2", type := "resistor", pinA := ⟨0, 0⟩, pinB := ⟨1, 0⟩, value := some "abc" }

/-- Two resistors with pairwise coincident terminals: they share both nodes
and form a connected, dangling-free loop. -/
def rPairA : ComponentInstance :=
  { id := "p1", type := "resistor", pinA := ⟨0, 0⟩, pinB := ⟨100, 0⟩, value := some "1" }

def rPairB : ComponentInstance :=
  { id := "p2", type := "resistor", pinA := ⟨0, 0⟩, pinB := ⟨100, 0⟩, value := some "2" }

/-- Modelled from the spec: "value field is a non-empty parsable string" and
"non-empty numeric-looking string" — after trimming and an optional sign, digits
with at most one decimal point. The code performs no such parsing; this
definition only serves to compare the spec's wording with the code. -/
def specParsableNumber (s : String) : Bool :=
  let t0 := s.trim
  let t := if t0.startsWith "-" || t0.startsWith "+" then t0.drop 1 else t0
  t != "" && t.all (fun c => c.isDigit || c == '.') && t.any Char.isDigit &&
    decide ((t.toList.filter (fun c => c == '.')).length ≤ 1)

/-! ### Theorems -/

/-- C6: the empty component list always fails integrity validation with the
empty-circuit error; in `validateCircuitIntegrity` this guard is the first
check, before any clustering is performed. -/
theorem empty_circuit_always_fails :
    validateCircuitIntegrity [] =
      Except.error "Circuito vuoto: aggiungi almeno un componente." := rfl

/-- C8: a single wire whose two terminals are within the clustering tolerance
of each other is assigned the node pair `(0, 0)`; that node's member count
reaches 2 from the component's own two terminals, so nothing is dangling, the
one-vertex adjacency graph is trivially connected, and integrity validation
succeeds even though the component touches no other component. -/
theorem single_component_same_cluster_validates :
    (buildTopology [selfLoopComp]).2 = [(0, 0)] ∧
    terminalCount (buildTopology [selfLoopComp]).2 0 = 2 ∧
    danglingComponents [selfLoopComp] (buildTopology [selfLoopComp]).2 = [] ∧
    validateCircuitIntegrity [selfLoopComp] = Except.ok () := by
  refine ⟨?_, ?_, ?_, ?_⟩ <;> with_unfolding_all rfl

/-- C9: one validation pass (integrity then parameters) returns the borrowed
component list unchanged — every component, with all its fields, is identical
before and after the pass. -/
theorem validation_pass_no_mutation (components : List ComponentInstance) :
    (validationPass components).2 = components ∧
    ∀ i : ℕ, ((validationPass components).2).get? i = components.get? i := by
  have h : (validationPass components).2 = components := by
    unfold validationPass
    cases validateCircuitIntegrity components with
    | error e => rfl
    | ok u =>
      cases u
      cases validateComponentParams components with
      | error e => rfl
      | ok u => cases u; rfl
  exact ⟨h, fun i => by rw [h]⟩

/-- C10: validation is a deterministic, stateless function of the component
list: clicking analyze a second time on the same unmodified list — starting
from whatever controller state the first click produced — yields the identical
verdict (same error or success), and recomputing the node-cluster assignment
yields the identical result. -/
theorem validation_deterministic (st : ControllerState) (components : List ComponentInstance) :
    (analyzeClick ((analyzeClick st components).2) components).1 =
      (analyzeClick st components).1 ∧
    (buildTopology (normalizeComponentsForAnalysis components)).2 =
      (buildTopology (normalizeComponentsForAnalysis components)).2 := by
  refine ⟨?_, rfl⟩
  unfold analyzeClick
  cases validateCircuitIntegrity (normalizeComponentsForAnalysis components) with
  | error e => rfl
  | ok u =>
    cases u
    cases validateComponentParams (normalizeComponentsForAnalysis components) with
    | error e => rfl
    | ok u => cases u; rfl

/-- C1 counterexample: a voltage source with an empty voltage field and no
explicit unknown flag is indeed normalized to voltage-unknown with current
resolving to known, but the parameter completeness check then FAILS, citing
"tensione" — both on the raw and on the normalized component — contradicting
the claim that such a component passes the check. -/
theorem voltage_source_empty_voltage_fails :
    (normalizeComponentForAnalysis vsEmpty).voltageUnknown = some true ∧
    (normalizeComponentForAnalysis vsEmpty).currentUnknown = some false ∧
    getMissingParamReason vsEmpty = some "tensione" ∧
    getMissingParamReason (normalizeComponentForAnalysis vsEmpty) = some "tensione" ∧
    validateComponentParams (normalizeComponentsForAnalysis [vsEmpty]) =
      Except.error "Errore parametro mancante: V1 (tensione)." := by
  with_unfolding_all exact ⟨rfl, rfl, rfl, rfl, rfl⟩

/-- C1 amended: for a `voltage_source` the completeness check succeeds iff the
voltage field is a present, non-blank string AND the component is not flagged
voltage-unknown (so a flagged-unknown or empty-voltage source fails, it does
not pass); symmetrically for `current_source` with the current field. -/
theorem source_param_check_characterization (comp : ComponentInstance) :
    (comp.type = "voltage_source" →
      (getMissingParamReason comp = none ↔
        (comp.voltageUnknown ≠ some true ∧ isNonemptyStringField comp.voltage = true))) ∧
    (comp.type = "current_source" →
      (getMissingParamReason comp = none ↔
        (comp.currentUnknown ≠ some true ∧ isNonemptyStringField comp.current = true))) := by
  constructor <;> intro h <;> simp [getMissingParamReason, h]

/-- Witness for the amended C1 at a concrete voltage source with known voltage. -/
theorem source_param_check_witness :
    getMissingParamReason vsKnown = none ↔
      (vsKnown.voltageUnknown ≠ some true ∧ isNonemptyStringField vsKnown.voltage = true) :=
  (source_param_check_characterization vsKnown).1 rfl

/-- C5 counterexample: with absent (hence agreeing) flags, both the inspector
and `buildLabeledComponent` resolve a `voltage_source` to
`(currentUnknown, voltageUnknown) = (true, false)` — current-unknown /
voltage-known — not the claimed voltage-unknown / current-known orientation;
neither site consults the voltage field. -/
theorem flag_orientation_counterexample :
    inspectorUnknownFlags "voltage_source" none none = (true, false) ∧
    buildLabeledUnknownFlags "voltage_source" none none = (true, false) ∧
    inspectorUnknownFlags "voltage_source" none none ≠ (false, true) ∧
    buildLabeledUnknownFlags "voltage_source" none none ≠ (false, true) := by
  refine ⟨rfl, rfl, by decide, by decide⟩

/-- C5 amended: every normalization site leaves exactly one of the two unknown
flags true, but the sites differ: `normalizeComponentsForAnalysis` derives the
flags from field emptiness (voltage_source: voltage-unknown iff the voltage
field is blank; current_source symmetrically), while the inspector and
`buildLabeledComponent` ignore the fields and resolve agreeing-or-absent flags
to the fixed orientation current-unknown/voltage-known for `voltage_source`
and current-known/voltage-unknown for `current_source`. -/
theorem unknown_flag_normalization (comp : ComponentInstance) (cu vu : Option Bool) :
    (comp.type = "voltage_source" →
      (normalizeComponentForAnalysis comp).voltageUnknown =
        some (!(isTruthyNonempty comp.voltage)) ∧
      (normalizeComponentForAnalysis comp).currentUnknown =
        some (isTruthyNonempty comp.voltage)) ∧
    (comp.type = "current_source" →
      (normalizeComponentForAnalysis comp).currentUnknown =
        some (!(isTruthyNonempty comp.current)) ∧
      (normalizeComponentForAnalysis comp).voltageUnknown =
        some (isTruthyNonempty comp.current)) ∧
    (cu.getD true = vu.getD true →
      inspectorUnknownFlags "voltage_source" cu vu = (true, false) ∧
      inspectorUnknownFlags "current_source" cu vu = (false, true) ∧
      buildLabeledUnknownFlags "voltage_source" cu vu = (true, false) ∧
      buildLabeledUnknownFlags "current_source" cu vu = (false, true)) ∧
    (inspectorUnknownFlags "voltage_source" cu vu).1 ≠
      (inspectorUnknownFlags "voltage_source" cu vu).2 ∧
    (inspectorUnknownFlags "current_source" cu vu).1 ≠
      (inspectorUnknownFlags "current_source" cu vu).2 ∧
    (buildLabeledUnknownFlags "voltage_source" cu vu).1 ≠
      (buildLabeledUnknownFlags "voltage_source" cu vu).2 ∧
    (buildLabeledUnknownFlags "current_source" cu vu).1 ≠
      (buildLabeledUnknownFlags "current_source" cu vu).2 := by
  refine ⟨fun h => ?_, fun h => ?_, ?_, ?_⟩
  · constructor <;> simp [normalizeComponentForAnalysis, h]
  · constructor <;> simp [normalizeComponentForAnalysis, h]
  · intro hagree
    rcases cu with _ | b <;> rcases vu with _ | c <;>
      first
        | decide
        | (cases b <;> cases c <;> revert hagree <;> decide)
        | (cases b <;> revert hagree <;> decide)
        | (cases c <;> revert hagree <;> decide)
  · rcases cu with _ | b <;> rcases vu with _ | c <;>
      first
        | decide
        | (cases b <;> cases c <;> decide)
        | (cases b <;> decide)
        | (cases c <;> decide)

/-- Witness for the amended C5 at absent flags and a concrete voltage source. -/
theorem unknown_flag_normalization_witness :
    inspectorUnknownFlags "voltage_source" none none = (true, false) ∧
    inspectorUnknownFlags "current_source" none none = (false, true) ∧
    buildLabeledUnknownFlags "voltage_source" none none = (true, false) ∧
    buildLabeledUnknownFlags "current_source" none none = (false, true) :=
  (unknown_flag_normalization vsEmpty none none).2.2.1 rfl

/-- C7 counterexample: a resistor whose value field is the non-numeric,
non-empty string "abc" — not a parsable number — still passes the completeness
check: the code checks only non-emptiness, never parsability. -/
theorem resistor_unparsable_value_passes :
    specParsableNumber "abc" = false ∧
    getMissingParamReason rJunk = none ∧
    validateComponentParams [rJunk] = Except.ok () := by
  with_unfolding_all exact ⟨rfl, rfl, rfl⟩

/-- C7 amended: for resistor/capacitor/inductor the completeness check succeeds
iff the value field is a present, non-blank string (no parsability requirement);
on failure the cited field is "valore"; wire components always satisfy the
check. -/
theorem passive_value_check (comp : ComponentInstance) :
    (comp.type = "resistor" ∨ comp.type = "capacitor" ∨ comp.type = "inductor" →
      ((getMissingParamReason comp = none ↔ isNonemptyStringField comp.value = true) ∧
        (getMissingParamReason comp = none ∨ getMissingParamReason comp = some "valore"))) ∧
    (comp.type = "wire" → getMissingParamReason comp = none) := by
  constructor
  · intro h
    have hw : ¬ comp.type = "wire" := by rcases h with h | h | h <;> simp [h]
    constructor
    · simp [getMissingParamReason, hw, h]
    · by_cases hv : isNonemptyStringField comp.value
      · left; simp [getMissingParamReason, hw, h, hv]
      · right; simp [getMissingParamReason, hw, h, hv]
  · intro h; simp [getMissingParamReason, h]

/-- Witness for the amended C7 at a concrete resistor (empty value field fails
citing "valore"). -/
theorem passive_value_check_witness :
    getMissingParamReason rJunk = none ↔ isNonemptyStringField rJunk.value = true :=
  ((passive_value_check rJunk).1 (Or.inl rfl)).1

/-- C2: `assignCluster` assigns the point exactly one node id, namely the index
of the first existing cluster whose centroid lies within the tolerance
(squared distance at most T² = 64), in which case that cluster's centroid is
updated to the incremental mean `(oldCentroid*oldCount + point)/(oldCount+1)`
with its count incremented and all other clusters untouched; if no cluster
qualifies the point becomes a fresh singleton cluster at index `length`. In
both cases the point is within the tolerance of the centroid it was compared
against at the moment of assignment (the singleton centroid is the point). -/
theorem assignCluster_spec (x y : ℚ) (clusters : List Cluster) (i : ℕ) (cs' : List Cluster)
    (h : assignCluster x y clusters = (i, cs')) :
    ((∃ c, clusters.get? i = some c ∧ dist2 x y c ≤ tolerance2 ∧
        cs' = clusters.set i
          ⟨(c.x * (c.count : ℚ) + x) / ((c.count : ℚ) + 1),
           (c.y * (c.count : ℚ) + y) / ((c.count : ℚ) + 1), c.count + 1⟩) ∧
      (∀ j c, j < i → clusters.get? j = some c → dist2 x y c > tolerance2)) ∨
    (i = clusters.length ∧ (∀ c ∈ clusters, dist2 x y c > tolerance2) ∧
      cs' = clusters ++ [⟨x, y, 1⟩] ∧ dist2 x y ⟨x, y, 1⟩ = 0) := by
  induction clusters generalizing i cs' with
  | nil =>
    rw [assignCluster] at h
    obtain ⟨hi, hcs⟩ := Prod.mk.inj h
    right
    refine ⟨?_, ?_, ?_, ?_⟩
    · simp [← hi]
    · intro c hc
      cases hc
    · rw [← hcs]
      rfl
    · simp [dist2]
  | cons c rest ih =>
    rw [assignCluster] at h
    by_cases hd : dist2 x y c > tolerance2
    · rw [if_pos hd] at h
      obtain ⟨i', cs'', hr⟩ : ∃ i' cs'', assignCluster x y rest = (i', cs'') := ⟨_, _, rfl⟩
      rw [hr] at h
      obtain ⟨hi, hcs⟩ := Prod.mk.inj h
      rcases ih i' cs'' hr with ⟨⟨c₀, hg, hle, hset⟩, hfirst⟩ | ⟨hlen, hall, happ, hz⟩
      · left
        refine ⟨⟨c₀, ?_, hle, ?_⟩, ?_⟩
        · rw [← hi, List.get?_cons_succ]; exact hg
        · rw [← hcs, ← hi, List.set_cons_succ, hset]
        · intro j cj hj hgj
          cases j with
          | zero => rw [List.get?_cons_zero] at hgj; cases hgj; exact hd
          | succ j =>
            rw [List.get?_cons_succ] at hgj
            exact hfirst j cj (by omega) hgj
      · right
        refine ⟨by simp [← hi, hlen], ?_, ?_, hz⟩
        · intro c₁ hc₁
          rcases List.mem_cons.mp hc₁ with h1 | h1
          · exact h1 ▸ hd
          · exact hall c₁ h1
        · rw [← hcs, happ]; rfl
    · rw [if_neg hd] at h
      obtain ⟨hi, hcs⟩ := Prod.mk.inj h
      left
      refine ⟨⟨c, ?_, le_of_not_lt hd, ?_⟩, ?_⟩
      · rw [← hi, List.get?_cons_zero]
      · rw [← hcs, ← hi]
        show mergePoint c x y :: rest = (c :: rest).set 0 _
        rw [List.set_cons_zero]
        refine congrArg (· :: rest) ?_
        simp only [mergePoint]
        refine congrArg₂ (fun a b => Cluster.mk a b (c.count + 1)) ?_ ?_ <;>
          rw [Nat.cast_add, Nat.cast_one]
      · intro j cj hj hgj
        omega


/-- Witness for C2 at a concrete input: the point (5, 0) processed against the
one-cluster list [(0, 0) with count 1] is assigned node id 0, the centroid
becomes the incremental mean (5/2, 0) with count 2, and the point was within
the tolerance of the centroid it was assigned to. -/
theorem assignCluster_spec_witness :
    assignCluster 5 0 [⟨0, 0, 1⟩] = (0, [⟨5 / 2, 0, 2⟩]) ∧
    dist2 5 0 ⟨0, 0, 1⟩ ≤ tolerance2 := by
  have happ : assignCluster 5 0 [⟨0, 0, 1⟩] = (0, [⟨5 / 2, 0, 2⟩]) := by
    with_unfolding_all rfl
  refine ⟨happ, ?_⟩
  rcases assignCluster_spec 5 0 [⟨0, 0, 1⟩] 0 [⟨5 / 2, 0, 2⟩] happ with
    ⟨⟨c, hg, hle, _⟩, _⟩ | ⟨hlen, _, _, _⟩
  · rw [List.get?_cons_zero] at hg
    cases hg
    exact hle
  · simp at hlen

/-- Elements of `danglingComponentsAux` are exactly the canonical labels of the
components whose node pair fails the dangling test, indexed from the running
start index. -/
theorem danglingComponentsAux_mem (cn : List (ℕ × ℕ)) :
    ∀ (comps : List ComponentInstance) (pairs : List (ℕ × ℕ)) (k : ℕ) (s : String),
      s ∈ danglingComponentsAux cn comps pairs k ↔
        ∃ j comp nodes, comps.get? j = some comp ∧ pairs.get? j = some nodes ∧
          danglingAt cn nodes = true ∧ s = canonicalLabel comp (k + j) := by
  intro comps
  induction comps with
  | nil =>
    intro pairs k s
    constructor
    · intro h
      cases pairs <;> simp [danglingComponentsAux] at h
    · rintro ⟨j, comp, nodes, hc, -, -, -⟩
      simp at hc
  | cons comp rest ih =>
    intro pairs k s
    cases pairs with
    | nil =>
      constructor
      · intro h
        simp [danglingComponentsAux] at h
      · rintro ⟨j, c, nodes, -, hn, -, -⟩
        simp at hn
    | cons nodes prest =>
      by_cases hd : danglingAt cn nodes
      · rw [danglingComponentsAux, if_pos hd]
        constructor
        · intro h
          rcases List.mem_cons.mp h with h0 | h1
          · exact ⟨0, comp, nodes, List.get?_cons_zero, List.get?_cons_zero, hd, by
              rw [h0, Nat.add_zero]⟩
          · obtain ⟨j, c, nds, hc, hn, hdd, hs⟩ := (ih prest (k + 1) s).mp h1
            refine ⟨j + 1, c, nds, ?_, ?_, hdd, ?_⟩
            · rw [List.get?_cons_succ]; exact hc
            · rw [List.get?_cons_succ]; exact hn
            · rw [hs]; congr 1; omega
        · rintro ⟨j, c, nds, hc, hn, hdd, hs⟩
          cases j with
          | zero =>
            rw [List.get?_cons_zero] at hc hn
            cases hc; cases hn
            exact List.mem_cons.mpr (Or.inl (by rw [hs, Nat.add_zero]))
          | succ j =>
            rw [List.get?_cons_succ] at hc hn
            refine List.mem_cons.mpr (Or.inr ((ih prest (k + 1) s).mpr ⟨j, c, nds, hc, hn, hdd, ?_⟩))
            rw [hs]; congr 1; omega
      · rw [danglingComponentsAux, if_neg hd]
        constructor
        · intro h
          obtain ⟨j, c, nds, hc, hn, hdd, hs⟩ := (ih prest (k + 1) s).mp h
          refine ⟨j + 1, c, nds, ?_, ?_, hdd, ?_⟩
          · rw [List.get?_cons_succ]; exact hc
          · rw [List.get?_cons_succ]; exact hn
          · rw [hs]; congr 1; omega
        · rintro ⟨j, c, nds, hc, hn, hdd, hs⟩
          cases j with
          | zero =>
            rw [List.get?_cons_zero] at hn
            cases hn
            exact absurd hdd hd
          | succ j =>
            rw [List.get?_cons_succ] at hc hn
            refine (ih prest (k + 1) s).mpr ⟨j, c, nds, hc, hn, hdd, ?_⟩
            rw [hs]; congr 1; omega

/-- C3: when the component list is non-empty and some component is dangling,
integrity validation fails with the message listing the first four dangling
labels (comma separated) and an overflow marker when more than four exist; a
label appears in the dangling list exactly for the components one of whose two
nodes has fewer than two terminal members. -/
theorem dangling_report (components : List ComponentInstance)
    (hne : components ≠ [])
    (hd : danglingComponents components ((buildTopology components).2) ≠ []) :
    validateCircuitIntegrity components =
      Except.error ("Errore di integrità: componenti/rami scoperti (" ++
        String.intercalate ", "
          ((danglingComponents components ((buildTopology components).2)).take 4) ++
        (if (danglingComponents components ((buildTopology components).2)).length > 4
          then "..." else "") ++ ").") ∧
    ∀ s, s ∈ danglingComponents components ((buildTopology components).2) ↔
      ∃ j comp nodes, components.get? j = some comp ∧
        ((buildTopology components).2).get? j = some nodes ∧
        (terminalCount ((buildTopology components).2) nodes.1 < 2 ∨
          terminalCount ((buildTopology components).2) nodes.2 < 2) ∧
        s = canonicalLabel comp j := by
  constructor
  · have hlen : ¬ components.length = 0 := by
      simpa [List.length_eq_zero] using hne
    have hdlen : 0 < (danglingComponents components ((buildTopology components).2)).length :=
      List.length_pos.mpr hd
    simp only [validateCircuitIntegrity]
    rw [if_neg hlen, if_pos hdlen]
  · intro s
    rw [danglingComponents, danglingComponentsAux_mem]
    constructor
    · rintro ⟨j, c, nds, hc, hn, hdd, hs⟩
      refine ⟨j, c, nds, hc, hn, ?_, by simpa using hs⟩
      simpa [danglingAt] using hdd
    · rintro ⟨j, c, nds, hc, hn, hdd, hs⟩
      refine ⟨j, c, nds, hc, hn, ?_, by simpa using hs⟩
      simpa [danglingAt] using hdd

/-- Witness for C3: the isolated resistor R1 (terminals 100 units apart) makes
integrity validation fail with the dangling report naming R1. -/
theorem dangling_report_witness :
    validateCircuitIntegrity [rFar] =
      Except.error "Errore di integrità: componenti/rami scoperti (R1)." := by
  have h := dangling_report [rFar] (by decide) (by with_unfolding_all decide)
  exact h.1.trans (by with_unfolding_all rfl)

/-- A neighbor index is a component index. -/
theorem neighborsOf_lt (cn : List (ℕ × ℕ)) (i j : ℕ) (h : j ∈ neighborsOf cn i) :
    j < cn.length :=
  List.mem_range.mp (List.mem_filter.mp h).1

/-- The visited set only grows along the neighbor fold. -/
theorem bfsInsert_fold_visited_subset (nbs : List ℕ) :
    ∀ st : List ℕ × Finset ℕ, st.2 ⊆ (nbs.foldl bfsInsert st).2 := by
  induction nbs with
  | nil => intro st; exact Finset.Subset.refl _
  | cons nb rest ih =>
    intro st
    refine Finset.Subset.trans ?_ (ih (bfsInsert st nb))
    rw [bfsInsert]
    by_cases h : nb ∈ st.2
    · rw [if_pos h]
    · rw [if_neg h]
      exact Finset.subset_insert _ _

/-- The queue only grows along the neighbor fold. -/
theorem bfsInsert_fold_queue_mono (nbs : List ℕ) :
    ∀ st : List ℕ × Finset ℕ, ∀ q ∈ st.1, q ∈ (nbs.foldl bfsInsert st).1 := by
  induction nbs with
  | nil => intro st q hq; exact hq
  | cons nb rest ih =>
    intro st q hq
    refine ih (bfsInsert st nb) q ?_
    rw [bfsInsert]
    by_cases h : nb ∈ st.2
    · rw [if_pos h]; exact hq
    · rw [if_neg h]; exact List.mem_append_left _ hq

/-- All folded neighbors end up in the visited set. -/
theorem bfsInsert_fold_visits (nbs : List ℕ) :
    ∀ st : List ℕ × Finset ℕ, ∀ x ∈ nbs, x ∈ (nbs.foldl bfsInsert st).2 := by
  induction nbs with
  | nil => intro st x hx; cases hx
  | cons nb rest ih =>
    intro st x hx
    rcases List.mem_cons.mp hx with rfl | h
    · apply bfsInsert_fold_visited_subset rest (bfsInsert st x)
      rw [bfsInsert]
      by_cases hm : x ∈ st.2
      · rw [if_pos hm]; exact hm
      · rw [if_neg hm]; exact Finset.mem_insert_self _ _
    · exact ih (bfsInsert st nb) x h

/-- New visited elements come from the folded neighbors. -/
theorem bfsInsert_fold_visited_src (nbs : List ℕ) :
    ∀ st : List ℕ × Finset ℕ, ∀ x ∈ (nbs.foldl bfsInsert st).2, x ∈ st.2 ∨ x ∈ nbs := by
  induction nbs with
  | nil => intro st x hx; exact Or.inl hx
  | cons nb rest ih =>
    intro st x hx
    rcases ih (bfsInsert st nb) x hx with h | h
    · rw [bfsInsert] at h
      by_cases hm : nb ∈ st.2
      · rw [if_pos hm] at h; exact Or.inl h
      · rw [if_neg hm] at h
        rcases Finset.mem_insert.mp h with h | h
        · exact Or.inr (h ▸ List.mem_cons_self _ _)
        · exact Or.inl h
    · exact Or.inr (List.mem_cons_of_mem _ h)

/-- New queue elements come from the folded neighbors. -/
theorem bfsInsert_fold_queue_src (nbs : List ℕ) :
    ∀ st : List ℕ × Finset ℕ, ∀ x ∈ (nbs.foldl bfsInsert st).1, x ∈ st.1 ∨ x ∈ nbs := by
  induction nbs with
  | nil => intro st x hx; exact Or.inl hx
  | cons nb rest ih =>
    intro st x hx
    rcases ih (bfsInsert st nb) x hx with h | h
    · rw [bfsInsert] at h
      by_cases hm : nb ∈ st.2
      · rw [if_pos hm] at h; exact Or.inl h
      · rw [if_neg hm] at h
        rcases List.mem_append.mp h with h | h
        · exact Or.inl h
        · exact Or.inr (List.mem_singleton.mp h ▸ List.mem_cons_self _ _)
    · exact Or.inr (List.mem_cons_of_mem _ h)

/-- Every visited element either was already visited or sits in the final
queue: the fold pushes each newly visited vertex onto the queue. -/
theorem bfsInsert_fold_visited_queue (nbs : List ℕ) :
    ∀ st : List ℕ × Finset ℕ, ∀ x ∈ (nbs.foldl bfsInsert st).2,
      x ∈ st.2 ∨ x ∈ (nbs.foldl bfsInsert st).1 := by
  induction nbs with
  | nil => intro st x hx; exact Or.inl hx
  | cons nb rest ih =>
    intro st x hx
    rcases ih (bfsInsert st nb) x hx with h | h
    · rw [bfsInsert] at h
      by_cases hm : nb ∈ st.2
      · rw [if_pos hm] at h; exact Or.inl h
      · rw [if_neg hm] at h
        rcases Finset.mem_insert.mp h with rfl | h
        · right
          apply bfsInsert_fold_queue_mono rest (bfsInsert st x)
          rw [bfsInsert, if_neg hm]
          exact List.mem_append_right _ (List.mem_singleton.mpr rfl)
        · exact Or.inl h
    · exact Or.inr h

/-- Queue length and visited cardinality grow in lockstep along the fold. -/
theorem bfsInsert_fold_card (nbs : List ℕ) :
    ∀ st : List ℕ × Finset ℕ,
      (nbs.foldl bfsInsert st).1.length + st.2.card =
        st.1.length + (nbs.foldl bfsInsert st).2.card := by
  induction nbs with
  | nil => intro st; rfl
  | cons nb rest ih =>
    intro st
    have h := ih (bfsInsert st nb)
    have hstep : (bfsInsert st nb).1.length + st.2.card =
        st.1.length + (bfsInsert st nb).2.card := by
      rw [bfsInsert]
      by_cases hm : nb ∈ st.2
      · rw [if_pos hm]
      · rw [if_neg hm]
        simp [Finset.card_insert_of_not_mem hm]
        omega
    have hgoal : ((nb :: rest).foldl bfsInsert st) = (rest.foldl bfsInsert (bfsInsert st nb)) :=
      List.foldl_cons ..
    rw [hgoal]
    omega

/-- The initial visited set is contained in the BFS result. -/
theorem bfsAux_mono (cn : List (ℕ × ℕ)) :
    ∀ (fuel : ℕ) (queue : List ℕ) (visited : Finset ℕ),
      visited ⊆ bfsAux cn fuel queue visited := by
  intro fuel
  induction fuel with
  | zero =>
    intro queue visited
    simp only [bfsAux]
    exact Finset.Subset.refl _
  | succ fuel ih =>
    intro queue visited
    cases queue with
    | nil =>
      simp only [bfsAux]
      exact Finset.Subset.refl _
    | cons current rest =>
      simp only [bfsAux]
      refine Finset.Subset.trans ?_ (ih _ _)
      exact bfsInsert_fold_visited_subset (neighborsOf cn current) (rest, visited)

/-- Every element of the BFS result satisfies any property that holds on the
initial queue and visited set and propagates along adjacency edges. -/
theorem bfsAux_sound (cn : List (ℕ × ℕ)) (P : ℕ → Prop)
    (hstep : ∀ u v, P u → v ∈ neighborsOf cn u → P v) :
    ∀ (fuel : ℕ) (queue : List ℕ) (visited : Finset ℕ),
      (∀ q ∈ queue, P q) → (∀ v ∈ visited, P v) →
      ∀ v ∈ bfsAux cn fuel queue visited, P v := by
  intro fuel
  induction fuel with
  | zero =>
    intro queue visited hq hv v hmem
    simp only [bfsAux] at hmem
    exact hv v hmem
  | succ fuel ih =>
    intro queue visited hq hv v hmem
    cases queue with
    | nil =>
      simp only [bfsAux] at hmem
      exact hv v hmem
    | cons current rest =>
      simp only [bfsAux] at hmem
      refine ih _ _ ?_ ?_ v hmem
      · intro q hqm
        rcases bfsInsert_fold_queue_src _ _ q hqm with h | h
        · exact hq q (List.mem_cons_of_mem _ h)
        · exact hstep current q (hq current (List.mem_cons_self _ _)) h
      · intro w hw
        rcases bfsInsert_fold_visited_src _ _ w hw with h | h
        · exact hv w h
        · exact hstep current w (hq current (List.mem_cons_self _ _)) h

/-- With the BFS invariants (queue inside visited, visited vertices in range,
vertices no longer queued already closed) and enough fuel, the BFS result is
closed under the adjacency relation. -/
theorem bfsAux_closed (cn : List (ℕ × ℕ)) :
    ∀ (fuel : ℕ) (queue : List ℕ) (visited : Finset ℕ),
      (∀ q ∈ queue, q ∈ visited) →
      (∀ v ∈ visited, v < cn.length) →
      (∀ v ∈ visited, v ∉ queue → ∀ w ∈ neighborsOf cn v, w ∈ visited) →
      queue.length + cn.length ≤ fuel + visited.card →
      ∀ v ∈ bfsAux cn fuel queue visited, ∀ w ∈ neighborsOf cn v,
        w ∈ bfsAux cn fuel queue visited := by
  intro fuel
  induction fuel with
  | zero =>
    intro queue visited hq hrange hclosed hbound v hv w hw
    have hsub : visited ⊆ Finset.range cn.length := fun x hx =>
      Finset.mem_range.mpr (hrange x hx)
    have hcard : visited.card ≤ cn.length := by
      simpa using Finset.card_le_card hsub
    have hqe : queue = [] := by
      cases queue with
      | nil => rfl
      | cons a t => exfalso; simp only [List.length_cons] at hbound; omega
    subst hqe
    simp only [bfsAux] at hv ⊢
    exact hclosed v hv (by simp) w hw
  | succ fuel ih =>
    intro queue visited hq hrange hclosed hbound v hv w hw
    cases queue with
    | nil =>
      simp only [bfsAux] at hv ⊢
      exact hclosed v hv (by simp) w hw
    | cons current rest =>
      simp only [bfsAux] at hv ⊢
      have hq' : ∀ q ∈ ((neighborsOf cn current).foldl bfsInsert (rest, visited)).1,
          q ∈ ((neighborsOf cn current).foldl bfsInsert (rest, visited)).2 := by
        intro q hqm
        rcases bfsInsert_fold_queue_src _ _ q hqm with h | h
        · exact bfsInsert_fold_visited_subset _ _ (hq q (List.mem_cons_of_mem _ h))
        · exact bfsInsert_fold_visits _ _ q h
      have hrange' : ∀ u ∈ ((neighborsOf cn current).foldl bfsInsert (rest, visited)).2,
          u < cn.length := by
        intro u hu
        rcases bfsInsert_fold_visited_src _ _ u hu with h | h
        · exact hrange u h
        · exact neighborsOf_lt cn current u h
      have hclosed' : ∀ u ∈ ((neighborsOf cn current).foldl bfsInsert (rest, visited)).2,
          u ∉ ((neighborsOf cn current).foldl bfsInsert (rest, visited)).1 →
          ∀ z ∈ neighborsOf cn u,
            z ∈ ((neighborsOf cn current).foldl bfsInsert (rest, visited)).2 := by
        intro u hu hnq z hz
        rcases bfsInsert_fold_visited_queue _ _ u hu with h | h
        · by_cases hcur : u = current
          · subst hcur
            exact bfsInsert_fold_visits _ _ z hz
          · have hnq0 : u ∉ (current :: rest) := by
              intro hmem
              rcases List.mem_cons.mp hmem with h1 | h1
              · exact hcur h1
              · exact hnq (bfsInsert_fold_queue_mono _ _ u h1)
            exact bfsInsert_fold_visited_subset _ _ (hclosed u h hnq0 z hz)
        · exact absurd h hnq
      have hbound' : ((neighborsOf cn current).foldl bfsInsert (rest, visited)).1.length +
          cn.length ≤ fuel + ((neighborsOf cn current).foldl bfsInsert (rest, visited)).2.card := by
        have hcardeq : ((neighborsOf cn current).foldl bfsInsert (rest, visited)).1.length
            + visited.card =
            rest.length + ((neighborsOf cn current).foldl bfsInsert (rest, visited)).2.card :=
          bfsInsert_fold_card (neighborsOf cn current) (rest, visited)
        simp only [List.length_cons] at hbound
        omega
      exact ih _ _ hq' hrange' hclosed' hbound' v hv w hw

/-- Characterization of the BFS visited set: for a non-empty node-pair list it
is the set of component indices reachable from component 0 through the
shared-node adjacency relation. -/
theorem bfsVisited_mem (cn : List (ℕ × ℕ)) (hne : cn ≠ []) (i : ℕ) :
    i ∈ bfsVisited cn ↔ Relation.ReflTransGen (adjStep cn) 0 i := by
  constructor
  · intro h
    refine bfsAux_sound cn (Relation.ReflTransGen (adjStep cn) 0) ?_ cn.length [0] {0} ?_ ?_ i h
    · intro u v hu hv
      exact hu.tail hv
    · intro q hq
      obtain rfl := List.mem_singleton.mp hq
      exact Relation.ReflTransGen.refl
    · intro v hv
      obtain rfl := Finset.mem_singleton.mp hv
      exact Relation.ReflTransGen.refl
  · intro h
    have h0 : (0 : ℕ) ∈ bfsVisited cn :=
      bfsAux_mono cn cn.length [0] {0} (Finset.mem_singleton_self 0)
    have hcl : ∀ v ∈ bfsVisited cn, ∀ w ∈ neighborsOf cn v, w ∈ bfsVisited cn := by
      refine bfsAux_closed cn cn.length [0] {0} ?_ ?_ ?_ ?_
      · intro q hq
        obtain rfl := List.mem_singleton.mp hq
        exact Finset.mem_singleton_self 0
      · intro v hv
        obtain rfl := Finset.mem_singleton.mp hv
        exact List.length_pos.mpr hne
      · intro v hv hnq w hw
        exfalso
        apply hnq
        rw [Finset.mem_singleton.mp hv]
        exact List.mem_singleton.mpr rfl
      · simp [Nat.add_comm]
    induction h with
    | refl => exact h0
    | tail hab hbc ih => exact hcl _ ih _ hbc

/-- Every BFS-visited index is a component index. -/
theorem bfsVisited_subset_range (cn : List (ℕ × ℕ)) (hne : cn ≠ []) :
    bfsVisited cn ⊆ Finset.range cn.length := by
  intro i hi
  refine Finset.mem_range.mpr ?_
  refine bfsAux_sound cn (· < cn.length) ?_ cn.length [0] {0} ?_ ?_ i hi
  · intro u v _ hv
    exact neighborsOf_lt cn u v hv
  · intro q hq
    obtain rfl := List.mem_singleton.mp hq
    exact List.length_pos.mpr hne
  · intro v hv
    obtain rfl := Finset.mem_singleton.mp hv
    exact List.length_pos.mpr hne

/-- The clustering pass produces exactly one node pair per component. -/
theorem buildTopology_length (components : List ComponentInstance) :
    ((buildTopology components).2).length = components.length := by
  suffices h : ∀ (cs : List ComponentInstance) (init : List Cluster × List (ℕ × ℕ)),
      ((cs.foldl topologyStep init).2).length = init.2.length + cs.length by
    simpa using h components ([], [])
  intro cs
  induction cs with
  | nil => intro init; simp
  | cons c rest ih =>
    intro init
    rw [List.foldl_cons, ih]
    simp only [topologyStep, List.length_append, List.length_cons, List.length_nil]
    omega

/-- C4: for every non-empty, dangling-free component list, integrity validation
accepts iff every component index is reachable from component index 0 by
traversing the component-adjacency graph (vertices are components, an edge
joins two distinct components iff their node pairs share a node id); the only
other possible outcome is the disconnected-circuit error, which is what two
disjoint sub-circuits combined into one list produce. -/
theorem connectivity_check (components : List ComponentInstance)
    (hne : components ≠ [])
    (hd : danglingComponents components ((buildTopology components).2) = []) :
    (validateCircuitIntegrity components = Except.ok () ↔
      ∀ i < components.length,
        Relation.ReflTransGen (adjStep ((buildTopology components).2)) 0 i) ∧
    (validateCircuitIntegrity components ≠ Except.ok () →
      validateCircuitIntegrity components =
        Except.error "Errore di integrità: il circuito non è completamente interconnesso.") ∧
    (∀ i j, adjStep ((buildTopology components).2) i j ↔
      (j < components.length ∧ j ≠ i ∧
        sharesNode (((buildTopology components).2).getD i (0, 0))
          (((buildTopology components).2).getD j (0, 0)) = true)) := by
  have hcn : ((buildTopology components).2).length = components.length :=
    buildTopology_length components
  have hcnne : (buildTopology components).2 ≠ [] := by
    intro h
    rw [h] at hcn
    exact hne (List.length_eq_zero.mp hcn.symm)
  have hlen : ¬ components.length = 0 := by
    simpa [List.length_eq_zero] using hne
  have hveq : validateCircuitIntegrity components =
      if (bfsVisited ((buildTopology components).2)).card ≠ components.length
      then Except.error "Errore di integrità: il circuito non è completamente interconnesso."
      else Except.ok () := by
    simp only [validateCircuitIntegrity]
    rw [if_neg hlen, hd]
    simp
  have hiff : (bfsVisited ((buildTopology components).2)).card = components.length ↔
      ∀ i < components.length,
        Relation.ReflTransGen (adjStep ((buildTopology components).2)) 0 i := by
    constructor
    · intro hcard i hi
      have hsub := bfsVisited_subset_range _ hcnne
      have heq : bfsVisited ((buildTopology components).2) =
          Finset.range ((buildTopology components).2).length := by
        apply Finset.eq_of_subset_of_card_le hsub
        rw [Finset.card_range, hcn, hcard]
      have hmem : i ∈ bfsVisited ((buildTopology components).2) := by
        rw [heq]
        exact Finset.mem_range.mpr (by omega)
      exact (bfsVisited_mem _ hcnne i).mp hmem
    · intro hall
      have hsub := bfsVisited_subset_range _ hcnne
      have hsup : Finset.range ((buildTopology components).2).length ⊆
          bfsVisited ((buildTopology components).2) := by
        intro i hi
        refine (bfsVisited_mem _ hcnne i).mpr (hall i ?_)
        have := Finset.mem_range.mp hi
        omega
      rw [Finset.Subset.antisymm hsub hsup, Finset.card_range, hcn]
  refine ⟨?_, ?_, ?_⟩
  · rw [hveq]
    by_cases hc : (bfsVisited ((buildTopology components).2)).card = components.length
    · rw [if_neg (by simpa using hc)]
      simp only [true_iff, hiff.mp hc]
      tauto
    · rw [if_pos hc]
      constructor
      · intro h
        cases h
      · intro hall
        exact absurd (hiff.mpr hall) hc
  · rw [hveq]
    by_cases hc : (bfsVisited ((buildTopology components).2)).card = components.length
    · rw [if_neg (by simpa using hc)]
      intro h
      exact absurd rfl h
    · rw [if_pos hc]
      intro h
      rfl
  · intro i j
    constructor
    · intro h
      simp only [adjStep, neighborsOf] at h
      have hj := List.mem_filter.mp h
      refine ⟨hcn ▸ List.mem_range.mp hj.1, ?_, ?_⟩
      · have := hj.2
        have hb := (Bool.and_eq_true _ _).mp this
        exact bne_iff_ne.mp hb.1
      · exact ((Bool.and_eq_true _ _).mp hj.2).2
    · rintro ⟨h1, h2, h3⟩
      simp only [adjStep, neighborsOf]
      refine List.mem_filter.mpr ⟨List.mem_range.mpr (by omega), ?_⟩
      refine (Bool.and_eq_true _ _).mpr ⟨bne_iff_ne.mpr h2, h3⟩

/-- Witness for C4: in the two-resistor loop (coincident terminals), the
adjacency characterization instantiated at components 0 and 1 — they are
adjacent because their node pairs share a node id. -/
theorem connectivity_check_witness :
    adjStep ((buildTopology [rPairA, rPairB]).2) 0 1 ↔
      (1 < [rPairA, rPairB].length ∧ 1 ≠ 0 ∧
        sharesNode (((buildTopology [rPairA, rPairB]).2).getD 0 (0, 0))
          (((buildTopology [rPairA, rPairB]).2).getD 1 (0, 0)) = true) :=
  (connectivity_check [rPairA, rPairB] (by decide)
    (by with_unfolding_all decide)).2.2 0 1

end Dynamica
